import Mathlib

/-!
Verification of the `wc_rs` word-count program (`src/main.rs`).

The program counts bytes, words and lines using a mergeable summary
structure `Flux`.  We embed the data model and the operations shallowly:

* bytes are natural numbers (the program works on `u8`; every theorem here
  quantifies over all naturals, which subsumes the byte range);
* the counters `words`, `lines`, `bytes` are `Nat` (they are `usize` in the
  source; the single subtraction `self.words + rhs.words - 1` in
  `Flux::span` is modelled by truncated `Nat` subtraction, and the safety
  claim shows it never actually truncates on reachable values);
* the rayon pipeline `par_iter().map(Flux::from).fold(..).reduce(..)` of
  `flux_over_byte_string` denotes, per rayon's contract, the sequential
  left-to-right fold of the per-byte summaries; arbitrary groupings of the
  reduction are modelled separately by `RedTree`;
* the `BufRead` input of `wc` is modelled as the list of outcomes of the
  successive `fill_buf` calls: each element is either an I/O error or the
  buffer contents, and an empty buffer (or the end of the list) signals
  end of input.
-/

/-- The class of a character (`CharType` in the source). -/
inductive CharType where
  | IsSpace : CharType
  | NotSpace : CharType
deriving DecidableEq

/-- Representation of a chunk of text (`Flux` in the source). -/
structure Flux where
  leftmost_char_type : CharType
  words : Nat
  lines : Nat
  rightmost_char_type : CharType
deriving DecidableEq

/-- Constructor `Flux::new`. -/
def Flux.new (leftmost_char_type : CharType) (words : Nat) (lines : Nat)
    (rightmost_char_type : CharType) : Flux :=
  ⟨leftmost_char_type, words, lines, rightmost_char_type⟩

/-- The merge operation `Flux::span`: the receiver covers the left range,
`rhs` the immediately following right range.  The word count subtracts one
when the boundary joins two non-space characters; as in the source this is
unsigned subtraction (here: truncated `Nat` subtraction). -/
def Flux.span (self : Flux) (rhs : Flux) : Flux :=
  let lines := self.lines + rhs.lines
  let words :=
    match self.rightmost_char_type, rhs.leftmost_char_type with
    | CharType.NotSpace, CharType.NotSpace => self.words + rhs.words - 1
    | _, _ => self.words + rhs.words
  Flux.new self.leftmost_char_type words lines rhs.rightmost_char_type

/-- Rust's `u8::is_ascii_whitespace`: space, horizontal tab, line feed,
form feed and carriage return (it does NOT include the vertical tab 0x0B). -/
def isAsciiWhitespace (b : Nat) : Bool :=
  b == 32 || b == 9 || b == 10 || b == 12 || b == 13

/-- The single-byte constructor `impl From<u8> for Flux`. -/
def Flux.fromByte (other : Nat) : Flux :=
  if isAsciiWhitespace other then
    Flux.new CharType.IsSpace 0 (if other == 10 then 1 else 0) CharType.IsSpace
  else
    Flux.new CharType.NotSpace 1 0 CharType.NotSpace

/-- The optional merge `span_opt`.  Translated from
`lhs.map_or(rhs, |l| rhs.map(|r| l.span(r)))`: note that when `lhs` is
`some` and `rhs` is `none` the result is `none`, not `lhs`. -/
def span_opt (lhs : Option Flux) (rhs : Option Flux) : Option Flux :=
  match lhs with
  | none => rhs
  | some left_flux => rhs.map (fun right_flux => left_flux.span right_flux)

/-- `flux_over_byte_string`: per-byte summaries combined by `span_opt`.
The rayon fold/reduce pipeline denotes the sequential left-to-right fold
in byte order (rayon's documented semantics); groupings of the reduction
into sub-ranges are modelled by `RedTree` below. -/
def flux_over_byte_string (input : List Nat) : Option Flux :=
  (input.map Flux.fromByte).foldl (fun acc next => span_opt acc (some next)) none

/-- The result of the `wc` operation (`Counts` in the source). -/
structure Counts where
  bytes : Nat
  words : Nat
  lines : Nat
deriving DecidableEq

/-- The final `Counts` assembled by `wc` from the byte counter and the
running flux (`flux.map(|f| f.words).unwrap_or_default()` etc.). -/
def mkCounts (bytes : Nat) (flux : Option Flux) : Counts :=
  { bytes := bytes
    words := (flux.map Flux.words).getD 0
    lines := (flux.map Flux.lines).getD 0 }

/-- The buffer loop of `wc`.  The input is the list of outcomes of the
successive `fill_buf` calls; an error is returned immediately ( `?` ), an
empty buffer breaks the loop, and the end of the list is end of input. -/
def wcLoop : List (Except String (List Nat)) → Nat → Option Flux → Except String Counts
  | [], bytes, flux => Except.ok (mkCounts bytes flux)
  | Except.error e :: _, _, _ => Except.error e
  | Except.ok buffer :: rest, bytes, flux =>
    if buffer.length = 0 then Except.ok (mkCounts bytes flux)
    else wcLoop rest (bytes + buffer.length) (span_opt flux (flux_over_byte_string buffer))

/-- The `wc` driver: byte counter starts at `0`, running flux at `None`. -/
def wc (input : List (Except String (List Nat))) : Except String Counts :=
  wcLoop input 0 none

/-! Reference definitions (the sequential left-to-right scan the spec's
claims compare against). -/

/-- Number of newline bytes in a list. -/
def countNewlines (l : List Nat) : Nat :=
  l.countP (fun b => b == 10)

/-- Sequential reference word scan: `inWord` records whether the scan is
currently inside a run of non-whitespace bytes; a word is counted when a
non-whitespace byte is reached while not in a word. -/
def refWordsAux : Bool → List Nat → Nat
  | _, [] => 0
  | inWord, b :: rest =>
    if isAsciiWhitespace b then refWordsAux false rest
    else (if inWord then 0 else 1) + refWordsAux true rest

/-- Number of maximal runs of non-whitespace bytes, by the reference scan. -/
def refWords (l : List Nat) : Nat :=
  refWordsAux false l

/-! Helper lemmas. -/

/-- The invariant of summaries produced by the pipeline: a chunk whose
left or right end is a non-space character contains at least one word. -/
def Flux.Valid (f : Flux) : Prop :=
  (f.leftmost_char_type = CharType.NotSpace ∨ f.rightmost_char_type = CharType.NotSpace) →
    1 ≤ f.words

lemma valid_fromByte (b : Nat) : (Flux.fromByte b).Valid := by
  unfold Flux.fromByte Flux.Valid
  split <;> simp [Flux.new]

lemma Flux.span_valid {a b : Flux} (ha : a.Valid) (hb : b.Valid) : (a.span b).Valid := by
  obtain ⟨al, aw, an, ar⟩ := a
  obtain ⟨bl, bw, bn, br⟩ := b
  cases al <;> cases ar <;> cases bl <;> cases br <;>
    simp_all [Flux.span, Flux.new, Flux.Valid] <;> omega

lemma Flux.span_assoc {a b c : Flux} (ha : a.Valid) (hb : b.Valid) (hc : c.Valid) :
    (a.span b).span c = a.span (b.span c) := by
  obtain ⟨al, aw, an, ar⟩ := a
  obtain ⟨bl, bw, bn, br⟩ := b
  obtain ⟨cl, cw, cn, cr⟩ := c
  cases ar <;> cases bl <;> cases br <;> cases cl <;>
    simp_all [Flux.span, Flux.new, Flux.Valid] <;> omega

/-- Folding `Flux.span` from an initial summary, as the pipeline does once
the accumulator is non-absent. -/
def spanFold (f : Flux) (l : List Flux) : Flux :=
  l.foldl Flux.span f

lemma spanFold_valid {l : List Flux} (hl : ∀ x ∈ l, x.Valid) {f : Flux} (hf : f.Valid) :
    (spanFold f l).Valid := by
  induction l generalizing f with
  | nil => exact hf
  | cons x l ih =>
    exact ih (fun y hy => hl y (List.mem_cons_of_mem x hy))
      (Flux.span_valid hf (hl x (List.mem_cons_self x l)))

lemma foldl_span_opt_some (l : List Flux) (f : Flux) :
    l.foldl (fun acc next => span_opt acc (some next)) (some f) = some (spanFold f l) := by
  induction l generalizing f with
  | nil => rfl
  | cons x l ih => exact ih (f.span x)

lemma flux_cons (b : Nat) (m : List Nat) :
    flux_over_byte_string (b :: m)
      = some (spanFold (Flux.fromByte b) (m.map Flux.fromByte)) := by
  unfold flux_over_byte_string
  simp only [List.map_cons, List.foldl_cons]
  exact foldl_span_opt_some _ _

lemma valid_map_fromByte (m : List Nat) : ∀ x ∈ m.map Flux.fromByte, x.Valid := by
  intro x hx
  obtain ⟨b, _, rfl⟩ := List.mem_map.mp hx
  exact valid_fromByte b

lemma span_spanFold {l : List Flux} (hl : ∀ x ∈ l, x.Valid) {f g : Flux}
    (hf : f.Valid) (hg : g.Valid) :
    f.span (spanFold g l) = spanFold (f.span g) l := by
  induction l generalizing g with
  | nil => rfl
  | cons x l ih =>
    have hx : x.Valid := hl x (List.mem_cons_self x l)
    calc f.span (spanFold g (x :: l))
        = f.span (spanFold (g.span x) l) := rfl
      _ = spanFold (f.span (g.span x)) l :=
          ih (fun y hy => hl y (List.mem_cons_of_mem x hy)) (Flux.span_valid hg hx)
      _ = spanFold ((f.span g).span x) l := by rw [Flux.span_assoc hf hg hx]
      _ = spanFold (f.span g) (x :: l) := rfl

lemma flux_valid {l : List Nat} {f : Flux} (h : flux_over_byte_string l = some f) :
    f.Valid := by
  cases l with
  | nil => exact absurd h (by simp [flux_over_byte_string])
  | cons b m =>
    rw [flux_cons] at h
    cases h
    exact spanFold_valid (valid_map_fromByte m) (valid_fromByte b)

lemma flux_append (l r : List Nat) (hr : r ≠ []) :
    span_opt (flux_over_byte_string l) (flux_over_byte_string r)
      = flux_over_byte_string (l ++ r) := by
  obtain ⟨c, r', rfl⟩ := List.exists_cons_of_ne_nil hr
  cases l with
  | nil => rfl
  | cons a l' =>
    rw [flux_cons a l', flux_cons c r',
      show (a :: l') ++ (c :: r') = a :: (l' ++ c :: r') from rfl, flux_cons]
    have hX : (spanFold (Flux.fromByte a) (l'.map Flux.fromByte)).Valid :=
      spanFold_valid (valid_map_fromByte l') (valid_fromByte a)
    calc span_opt (some (spanFold (Flux.fromByte a) (l'.map Flux.fromByte)))
          (some (spanFold (Flux.fromByte c) (r'.map Flux.fromByte)))
        = some ((spanFold (Flux.fromByte a) (l'.map Flux.fromByte)).span
            (spanFold (Flux.fromByte c) (r'.map Flux.fromByte))) := rfl
      _ = some (spanFold ((spanFold (Flux.fromByte a) (l'.map Flux.fromByte)).span
            (Flux.fromByte c)) (r'.map Flux.fromByte)) := by
          rw [span_spanFold (valid_map_fromByte r') hX (valid_fromByte c)]
      _ = some (spanFold (Flux.fromByte a) ((l' ++ c :: r').map Flux.fromByte)) := by
          rw [List.map_append, List.map_cons]
          unfold spanFold
          rw [List.foldl_append]
          rfl

lemma Flux.span_words (a b : Flux) :
    (a.span b).words =
      if a.rightmost_char_type = CharType.NotSpace ∧ b.leftmost_char_type = CharType.NotSpace
      then a.words + b.words - 1 else a.words + b.words := by
  obtain ⟨al, aw, an, ar⟩ := a
  obtain ⟨bl, bw, bn, br⟩ := b
  cases ar <;> cases bl <;> simp [Flux.span, Flux.new]

lemma Flux.span_lines (a b : Flux) : (a.span b).lines = a.lines + b.lines := rfl

lemma Flux.span_left (a b : Flux) :
    (a.span b).leftmost_char_type = a.leftmost_char_type := rfl

lemma Flux.span_right (a b : Flux) :
    (a.span b).rightmost_char_type = b.rightmost_char_type := rfl

lemma fromByte_left (b : Nat) : (Flux.fromByte b).leftmost_char_type
    = (if isAsciiWhitespace b then CharType.IsSpace else CharType.NotSpace) := by
  unfold Flux.fromByte
  split <;> rfl

lemma fromByte_right (b : Nat) : (Flux.fromByte b).rightmost_char_type
    = (if isAsciiWhitespace b then CharType.IsSpace else CharType.NotSpace) := by
  unfold Flux.fromByte
  split <;> rfl

lemma fromByte_words (b : Nat) : (Flux.fromByte b).words
    = (if isAsciiWhitespace b then 0 else 1) := by
  unfold Flux.fromByte
  split <;> rfl

lemma fromByte_lines (b : Nat) : (Flux.fromByte b).lines = (if b = 10 then 1 else 0) := by
  unfold Flux.fromByte
  by_cases h : isAsciiWhitespace b = true
  · simp [h, Flux.new]
  · have h10 : b ≠ 10 := by
      intro hh
      subst hh
      simp [isAsciiWhitespace] at h
    simp [h, Flux.new, h10]

lemma flux_stats (m : List Nat) : ∀ b : Nat,
    (spanFold (Flux.fromByte b) (m.map Flux.fromByte)).lines = countNewlines (b :: m)
    ∧ (spanFold (Flux.fromByte b) (m.map Flux.fromByte)).leftmost_char_type
        = (Flux.fromByte b).leftmost_char_type
    ∧ ∀ inWord : Bool,
        (spanFold (Flux.fromByte b) (m.map Flux.fromByte)).words
          = refWordsAux inWord (b :: m)
            + (if inWord = true ∧ isAsciiWhitespace b = false then 1 else 0) := by
  induction m with
  | nil =>
    intro b
    refine ⟨?_, rfl, ?_⟩
    · show (Flux.fromByte b).lines = _
      rw [fromByte_lines]
      by_cases h10 : b = 10 <;> simp [countNewlines, List.countP_cons, h10]
    · intro inWord
      show (Flux.fromByte b).words = _
      rw [fromByte_words]
      by_cases hb : isAsciiWhitespace b = true
      · cases inWord <;> simp [refWordsAux, hb]
      · have hb' : isAsciiWhitespace b = false := by simpa using hb
        cases inWord <;> simp [refWordsAux, hb']
  | cons c m ih =>
    intro b
    obtain ⟨ihl, ihleft, ihw⟩ := ih c
    have key : spanFold (Flux.fromByte b) ((c :: m).map Flux.fromByte)
        = (Flux.fromByte b).span (spanFold (Flux.fromByte c) (m.map Flux.fromByte)) :=
      (span_spanFold (valid_map_fromByte m) (valid_fromByte b) (valid_fromByte c)).symm
    rw [key]
    refine ⟨?_, ?_, ?_⟩
    · rw [Flux.span_lines, ihl, fromByte_lines]
      by_cases h10 : b = 10 <;>
        simp [countNewlines, List.countP_cons, h10, Nat.add_comm]
    · rw [Flux.span_left]
    · intro inWord
      rw [Flux.span_words, fromByte_right, fromByte_words, ihleft, fromByte_left]
      by_cases hb : isAsciiWhitespace b = true
      · rw [ihw false]
        cases inWord <;> simp [refWordsAux, hb]
      · have hb' : isAsciiWhitespace b = false := by simpa using hb
        rw [ihw true]
        by_cases hc : isAsciiWhitespace c = true
        · cases inWord <;> simp [refWordsAux, hb', hc] <;> omega
        · have hc' : isAsciiWhitespace c = false := by simpa using hc
          cases inWord <;> simp [refWordsAux, hb', hc'] <;> omega

lemma wcLoop_ok (bufs : List (List Nat)) (h : ∀ x ∈ bufs, x ≠ []) :
    ∀ (bytes : Nat) (g : Flux), g.Valid →
    wcLoop (bufs.map Except.ok) bytes (some g)
      = Except.ok (mkCounts (bytes + bufs.flatten.length)
          (some (spanFold g (bufs.flatten.map Flux.fromByte)))) := by
  induction bufs with
  | nil =>
    intro bytes g _
    simp [wcLoop, spanFold]
  | cons buf rest ih =>
    intro bytes g hg
    have hbuf : buf ≠ [] := h buf (List.mem_cons_self _ _)
    obtain ⟨b0, bs, rfl⟩ := List.exists_cons_of_ne_nil hbuf
    have hflux : span_opt (some g) (flux_over_byte_string (b0 :: bs))
        = some (spanFold g ((b0 :: bs).map Flux.fromByte)) := by
      rw [flux_cons]
      show some (g.span (spanFold (Flux.fromByte b0) (bs.map Flux.fromByte))) = _
      rw [span_spanFold (valid_map_fromByte bs) hg (valid_fromByte b0)]
      rfl
    have hstep : wcLoop (((b0 :: bs) :: rest).map Except.ok) bytes (some g)
        = wcLoop (rest.map Except.ok) (bytes + (b0 :: bs).length)
            (some (spanFold g ((b0 :: bs).map Flux.fromByte))) := by
      rw [List.map_cons]
      show (if (b0 :: bs).length = 0 then _ else _) = _
      rw [if_neg (by simp)]
      rw [hflux]
    rw [hstep,
      ih (fun y hy => h y (List.mem_cons_of_mem _ hy)) (bytes + (b0 :: bs).length)
        (spanFold g ((b0 :: bs).map Flux.fromByte))
        (spanFold_valid (valid_map_fromByte (b0 :: bs)) hg)]
    have hflat : ((b0 :: bs) :: rest).flatten = (b0 :: bs) ++ rest.flatten := rfl
    rw [hflat]
    have harith : bytes + (b0 :: bs).length + rest.flatten.length
        = bytes + ((b0 :: bs) ++ rest.flatten).length := by
      simp
      omega
    rw [harith]
    have hfold : spanFold (spanFold g ((b0 :: bs).map Flux.fromByte))
          (rest.flatten.map Flux.fromByte)
        = spanFold g (((b0 :: bs) ++ rest.flatten).map Flux.fromByte) := by
      unfold spanFold
      rw [List.map_append, List.foldl_append]
    rw [hfold]

/-- A grouping of the reduction step of `flux_over_byte_string` into
contiguous sub-ranges, in original byte order: leaves carry the sub-ranges
(an empty leaf models rayon's `reduce` identity `None` for an empty
split), inner nodes the pairwise `span_opt` combinations. -/
inductive RedTree where
  | leaf : List Nat → RedTree
  | node : RedTree → RedTree → RedTree

/-- The byte range a reduction tree covers, in order. -/
def RedTree.flat : RedTree → List Nat
  | RedTree.leaf c => c
  | RedTree.node l r => l.flat ++ r.flat

/-- The result of the grouped fold-then-reduce: each leaf sub-range is
folded sequentially (rayon's per-worker `fold`), inner nodes combine the
partial results with `span_opt` (rayon's `reduce`). -/
def RedTree.value : RedTree → Option Flux
  | RedTree.leaf c => flux_over_byte_string c
  | RedTree.node l r => span_opt l.value r.value

/-- Whether every sub-range of the grouping is non-empty. -/
def RedTree.goodChunks : RedTree → Bool
  | RedTree.leaf c => !c.isEmpty
  | RedTree.node l r => l.goodChunks && r.goodChunks

lemma RedTree.flat_ne_nil {t : RedTree} (h : t.goodChunks = true) : t.flat ≠ [] := by
  induction t with
  | leaf c =>
    simp [RedTree.goodChunks, List.isEmpty_iff] at h
    exact h
  | node l r ihl ihr =>
    simp [RedTree.goodChunks] at h
    have := ihl h.1
    show l.flat ++ r.flat ≠ []
    intro hc
    exact this (List.append_eq_nil.mp hc).1

lemma redTree_value_eq {t : RedTree} (h : t.goodChunks = true) :
    t.value = flux_over_byte_string t.flat := by
  induction t with
  | leaf c => rfl
  | node l r ihl ihr =>
    simp [RedTree.goodChunks] at h
    show span_opt l.value r.value = _
    rw [ihl h.1, ihr h.2, RedTree.flat]
    exact flux_append l.flat r.flat (RedTree.flat_ne_nil h.2)

lemma wcLoop_error (pre : List (List Nat)) (h : ∀ x ∈ pre, x ≠ []) (e : String)
    (rest : List (Except String (List Nat))) :
    ∀ (bytes : Nat) (flux : Option Flux),
    wcLoop (pre.map Except.ok ++ Except.error e :: rest) bytes flux = Except.error e := by
  induction pre with
  | nil => intro bytes flux; rfl
  | cons buf pre ih =>
    intro bytes flux
    have hbuf : buf ≠ [] := h buf (List.mem_cons_self _ _)
    show (if buf.length = 0 then _ else _) = _
    rw [if_neg (by simpa using hbuf)]
    exact ih (fun y hy => h y (List.mem_cons_of_mem _ hy)) _ _

/-- The `Flux` values reachable from the public pipeline: images of single
bytes under `From<u8>`, closed under `Flux::span`. -/
inductive Flux.Reachable : Flux → Prop where
  | ofByte (b : Nat) : Flux.Reachable (Flux.fromByte b)
  | span {a b : Flux} : Flux.Reachable a → Flux.Reachable b → Flux.Reachable (a.span b)

lemma Flux.Reachable.valid {f : Flux} (h : f.Reachable) : f.Valid := by
  induction h with
  | ofByte b => exact valid_fromByte b
  | span _ _ iha ihb => exact Flux.span_valid iha ihb

/-! Claim theorems. -/

/-- Claim C1, counterexample: splitting the one-byte input `[104]` with an
empty right part refutes the claim as stated, because
`span_opt (some f) none = none` while the summary of the whole is `some f`. -/
theorem claim1_counterexample :
    ¬ (span_opt (flux_over_byte_string [104]) (flux_over_byte_string [])
        = flux_over_byte_string ([104] ++ [])) := by
  decide

/-- Claim C1 (amended): for every split of a byte sequence whose right part
is non-empty (or whose left part is empty), merging the two parts' summaries
with `span_opt` equals the summary of the whole sequence. -/
theorem claim1_split_merge (l r : List Nat) (h : r ≠ [] ∨ l = []) :
    span_opt (flux_over_byte_string l) (flux_over_byte_string r)
      = flux_over_byte_string (l ++ r) := by
  rcases h with h | h
  · exact flux_append l r h
  · subst h
    rfl

/-- Claim C1, witness: the amended theorem applied to a concrete split. -/
theorem claim1_split_merge_witness :
    (([32, 98] : List Nat) ≠ [] ∨ ([104, 105] : List Nat) = [])
    ∧ span_opt (flux_over_byte_string [104, 105]) (flux_over_byte_string [32, 98])
        = flux_over_byte_string ([104, 105] ++ [32, 98]) :=
  ⟨Or.inl (by decide), claim1_split_merge [104, 105] [32, 98] (Or.inl (by decide))⟩

/-- Claim C2: `Flux::span` is associative on any three values that arise as
summaries of byte ranges. -/
theorem claim2_span_assoc (A B C : Flux) (la lb lc : List Nat)
    (hA : flux_over_byte_string la = some A)
    (hB : flux_over_byte_string lb = some B)
    (hC : flux_over_byte_string lc = some C) :
    (A.span B).span C = A.span (B.span C) :=
  Flux.span_assoc (flux_valid hA) (flux_valid hB) (flux_valid hC)

/-- Claim C2, witness: associativity at the summaries of three concrete
one-byte ranges. -/
theorem claim2_span_assoc_witness :
    flux_over_byte_string [97] = some (Flux.new CharType.NotSpace 1 0 CharType.NotSpace)
    ∧ flux_over_byte_string [32] = some (Flux.new CharType.IsSpace 0 0 CharType.IsSpace)
    ∧ flux_over_byte_string [98] = some (Flux.new CharType.NotSpace 1 0 CharType.NotSpace)
    ∧ ((Flux.new CharType.NotSpace 1 0 CharType.NotSpace).span
          (Flux.new CharType.IsSpace 0 0 CharType.IsSpace)).span
            (Flux.new CharType.NotSpace 1 0 CharType.NotSpace)
        = (Flux.new CharType.NotSpace 1 0 CharType.NotSpace).span
            ((Flux.new CharType.IsSpace 0 0 CharType.IsSpace).span
              (Flux.new CharType.NotSpace 1 0 CharType.NotSpace)) :=
  ⟨by decide, by decide, by decide,
    claim2_span_assoc _ _ _ [97] [32] [98] (by decide) (by decide) (by decide)⟩

/-- Claim C3, evaluation at the failing input: `span_opt` with an absent
right operand and a present left operand returns `none`, not the left
operand; the identity does hold in the other position. -/
theorem claim3_span_opt_absent_eval :
    span_opt (some (Flux.new CharType.NotSpace 1 0 CharType.NotSpace)) none = none
    ∧ span_opt none (some (Flux.new CharType.NotSpace 1 0 CharType.NotSpace))
        = some (Flux.new CharType.NotSpace 1 0 CharType.NotSpace) := by
  decide

/-- Claim C4, counterexample: the vertical tab 0x0B is NOT classified as
whitespace by the code, refuting the six-byte whitespace set of the claim. -/
theorem claim4_counterexample :
    ¬ ((Flux.fromByte 11).leftmost_char_type = CharType.IsSpace
        ↔ (11 = 32 ∨ 11 = 9 ∨ 11 = 10 ∨ 11 = 13 ∨ 11 = 11 ∨ 11 = 12)) := by
  decide

/-- Claim C4 (amended): a byte is classified whitespace iff it is one of the
FIVE bytes space, tab, newline, carriage return, form feed; every other
byte (the vertical tab 0x0B and all non-ASCII bytes included) is classified
non-whitespace. -/
theorem claim4_whitespace_classification (b : Nat) :
    ((Flux.fromByte b).leftmost_char_type = CharType.IsSpace
        ↔ (b = 32 ∨ b = 9 ∨ b = 10 ∨ b = 13 ∨ b = 12))
    ∧ ((Flux.fromByte b).rightmost_char_type = CharType.IsSpace
        ↔ (b = 32 ∨ b = 9 ∨ b = 10 ∨ b = 13 ∨ b = 12))
    ∧ ((Flux.fromByte b).leftmost_char_type = CharType.NotSpace
        ↔ ¬ (b = 32 ∨ b = 9 ∨ b = 10 ∨ b = 13 ∨ b = 12)) := by
  rw [fromByte_left, fromByte_right]
  by_cases h : isAsciiWhitespace b = true
  · have hl : (b = 32 ∨ b = 9 ∨ b = 10 ∨ b = 13 ∨ b = 12) := by
      simp [isAsciiWhitespace] at h
      tauto
    simp [h, hl]
  · have hl : ¬ (b = 32 ∨ b = 9 ∨ b = 10 ∨ b = 13 ∨ b = 12) := by
      simp [isAsciiWhitespace] at h
      tauto
    simp [h, hl]

/-- Claim C5: for every input delivered in non-empty buffers, `wc` returns
the length of the input as `bytes`, the number of newline bytes as `lines`,
and the word count of the sequential left-to-right reference scan as
`words`. -/
theorem claim5_wc_counts (bufs : List (List Nat)) (h : ∀ x ∈ bufs, x ≠ []) :
    wc (bufs.map Except.ok)
      = Except.ok { bytes := bufs.flatten.length
                    words := refWords bufs.flatten
                    lines := countNewlines bufs.flatten } := by
  cases bufs with
  | nil => rfl
  | cons buf rest =>
    have hbuf : buf ≠ [] := h buf (List.mem_cons_self _ _)
    obtain ⟨b0, bs, rfl⟩ := List.exists_cons_of_ne_nil hbuf
    have hg : (spanFold (Flux.fromByte b0) (bs.map Flux.fromByte)).Valid :=
      spanFold_valid (valid_map_fromByte bs) (valid_fromByte b0)
    have hstep : wc (((b0 :: bs) :: rest).map Except.ok)
        = wcLoop (rest.map Except.ok) (0 + (b0 :: bs).length)
            (some (spanFold (Flux.fromByte b0) (bs.map Flux.fromByte))) := by
      show wcLoop (Except.ok (b0 :: bs) :: rest.map Except.ok) 0 none = _
      show (if (b0 :: bs).length = 0 then Except.ok (mkCounts 0 none)
        else wcLoop (rest.map Except.ok) (0 + (b0 :: bs).length)
          (span_opt none (flux_over_byte_string (b0 :: bs)))) = _
      rw [if_neg (by simp)]
      rw [flux_cons]
      rfl
    rw [hstep, wcLoop_ok rest (fun y hy => h y (List.mem_cons_of_mem _ hy)) _ _ hg]
    have hF : spanFold (spanFold (Flux.fromByte b0) (bs.map Flux.fromByte))
          (rest.flatten.map Flux.fromByte)
        = spanFold (Flux.fromByte b0) ((bs ++ rest.flatten).map Flux.fromByte) := by
      unfold spanFold
      rw [List.map_append, List.foldl_append]
    obtain ⟨hl, _, hw⟩ := flux_stats (bs ++ rest.flatten) b0
    have hflat : ((b0 :: bs) :: rest).flatten = b0 :: (bs ++ rest.flatten) := rfl
    rw [hF, hflat]
    have hwords : (spanFold (Flux.fromByte b0) ((bs ++ rest.flatten).map Flux.fromByte)).words
        = refWords (b0 :: (bs ++ rest.flatten)) := by
      rw [hw false]
      simp [refWords]
    have hmk : ∀ (n : Nat) (f : Flux), mkCounts n (some f) = ⟨n, f.words, f.lines⟩ :=
      fun n f => rfl
    rw [hmk, hwords, hl]
    have hbytes : 0 + (b0 :: bs).length + rest.flatten.length
        = (b0 :: (bs ++ rest.flatten)).length := by
      simp
      omega
    rw [hbytes]

/-- Claim C5, witness: the theorem applied to two concrete non-empty
buffers. -/
theorem claim5_wc_counts_witness :
    (∀ x ∈ [[104, 105], [32, 119]], x ≠ ([] : List Nat))
    ∧ wc ([[104, 105], [32, 119]].map Except.ok)
        = Except.ok { bytes := 4, words := 2, lines := 0 } := by
  refine ⟨by decide, ?_⟩
  rw [claim5_wc_counts [[104, 105], [32, 119]] (by decide)]
  rfl

/-- Claim C6: `wc` on the spec's three concrete inputs: the empty input,
the bytes of a string of two words ending in a newline, and the bytes of
three newline-separated words without a trailing newline. -/
theorem claim6_wc_examples :
    wc [Except.ok []] = Except.ok { bytes := 0, words := 0, lines := 0 }
    ∧ wc [Except.ok [104, 101, 108, 108, 111, 32, 119, 111, 114, 108, 100, 10]]
        = Except.ok { bytes := 12, words := 2, lines := 1 }
    ∧ wc [Except.ok [111, 110, 101, 10, 116, 119, 111, 10, 116, 104, 114, 101, 101]]
        = Except.ok { bytes := 13, words := 3, lines := 2 } :=
  ⟨rfl, rfl, rfl⟩

/-- Claim C7: `flux_over_byte_string` is absent exactly on the empty
buffer, and present (a summary of the whole buffer) on every non-empty
buffer. -/
theorem claim7_flux_none_iff (input : List Nat) :
    flux_over_byte_string input = none ↔ input = [] := by
  cases input with
  | nil => simp [flux_over_byte_string]
  | cons b m =>
    rw [flux_cons]
    simp

/-- Claim C8, counterexample: grouping the reduction of the one-byte input
`[104]` with an empty sub-range on the right yields `none`, not the
sequential summary, refuting the claim for arbitrary groupings. -/
theorem claim8_counterexample :
    ¬ ((RedTree.node (RedTree.leaf [104]) (RedTree.leaf [])).value
        = flux_over_byte_string
            (RedTree.node (RedTree.leaf [104]) (RedTree.leaf [])).flat) := by
  decide

/-- Claim C8 (amended): for every grouping of the fold-then-reduce into
contiguous sub-ranges in byte order, all of them non-empty, the grouped
reduction equals the sequential left-to-right fold of the whole range. -/
theorem claim8_grouped_reduce (t : RedTree) (h : t.goodChunks = true) :
    t.value = flux_over_byte_string t.flat :=
  redTree_value_eq h

/-- Claim C8, witness: the amended theorem at a concrete two-chunk
grouping. -/
theorem claim8_grouped_reduce_witness :
    (RedTree.node (RedTree.leaf [104, 32]) (RedTree.leaf [119])).goodChunks = true
    ∧ (RedTree.node (RedTree.leaf [104, 32]) (RedTree.leaf [119])).value
        = flux_over_byte_string
            (RedTree.node (RedTree.leaf [104, 32]) (RedTree.leaf [119])).flat :=
  ⟨by decide, claim8_grouped_reduce _ (by decide)⟩

/-- Claim C9: if any buffer request fails, `wc` returns that error (after
any number of successfully processed non-empty buffers, and whatever would
have followed); no `Counts` value is produced. -/
theorem claim9_error_propagation (pre : List (List Nat)) (h : ∀ x ∈ pre, x ≠ [])
    (e : String) (rest : List (Except String (List Nat))) :
    wc (pre.map Except.ok ++ Except.error e :: rest) = Except.error e :=
  wcLoop_error pre h e rest 0 none

/-- Claim C9, witness: an error after one successful buffer is returned. -/
theorem claim9_error_propagation_witness :
    (∀ x ∈ [[104]], x ≠ ([] : List Nat))
    ∧ wc ([[104]].map Except.ok ++ Except.error "read failure" :: [])
        = Except.error "read failure" :=
  ⟨by decide, claim9_error_propagation [[104]] (by decide) "read failure" []⟩

/-- Claim C10: every `Flux` reachable from the public pipeline (a single
byte's summary, or the span of two reachable values) has at least one word
whenever either of its boundary classes is non-space; consequently the
subtraction in `Flux::span` never underflows. -/
theorem claim10_no_underflow (a b : Flux) (ha : a.Reachable) (hb : b.Reachable) :
    ((a.rightmost_char_type = CharType.NotSpace ∨ a.leftmost_char_type = CharType.NotSpace) →
        1 ≤ a.words)
    ∧ (a.rightmost_char_type = CharType.NotSpace → b.leftmost_char_type = CharType.NotSpace →
        1 ≤ a.words + b.words) := by
  have hva := ha.valid
  have hvb := hb.valid
  refine ⟨fun hc => hva hc.symm, fun h1 h2 => ?_⟩
  have := hva (Or.inr h1)
  omega

/-- Claim C10, witness: the theorem at the summary of the byte 97. -/
theorem claim10_no_underflow_witness :
    (Flux.fromByte 97).Reachable
    ∧ ((((Flux.fromByte 97).rightmost_char_type = CharType.NotSpace
          ∨ (Flux.fromByte 97).leftmost_char_type = CharType.NotSpace) →
            1 ≤ (Flux.fromByte 97).words)
        ∧ ((Flux.fromByte 97).rightmost_char_type = CharType.NotSpace →
            (Flux.fromByte 97).leftmost_char_type = CharType.NotSpace →
            1 ≤ (Flux.fromByte 97).words + (Flux.fromByte 97).words)) :=
  ⟨Flux.Reachable.ofByte 97,
    claim10_no_underflow (Flux.fromByte 97) (Flux.fromByte 97)
      (Flux.Reachable.ofByte 97) (Flux.Reachable.ofByte 97)⟩
